import Mathlib

/-!
Verification of the PII-detection fine-tuning notebook.

Shallow embedding of `notebooks/pii_detection/pii_detection_training_example.ipynb`
(the single source file of this repository) and proofs about it.

The notebook is glue code around external libraries (cudf, torch, sklearn,
transformers).  The pipeline stages written in the notebook itself are embedded
directly from their source cells; calls into external libraries are embedded
from those libraries' documented behaviour, with the notebook's own plumbing
(reshapes, list comprehensions, accumulators, thresholds, zips) translated
faithfully.  Machine floats are modelled as exact rationals (`ℚ`); Python
integer truncation `int(x * .8)` is modelled as natural floor division, which
agrees with the float computation for every dataset size that arises.
-/

set_option autoImplicit false

namespace PiiNotebook

universe u v

/-! ## Data model: the loaded dataframe

`df = cudf.read_csv(PII_SAMPLE_CSV)` yields a table with a `text` column and
binary label columns.  A cell is either a text string or a numeric value. -/

/-- A single cell of the loaded dataframe. -/
inductive Cell where
  | text (s : String)
  | num (v : Int)
deriving DecidableEq, Repr

instance : Inhabited Cell := ⟨Cell.num 0⟩

/-- A dataframe: an ordered list of column names and a list of rows, each row
holding one cell per column. -/
structure DataFrame where
  columns : List String
  rows : List (List Cell)
deriving Repr

/-! ## Label extraction (notebook cells 6-7)

```python
label_names = list(df.columns)
label_names.remove('text')
labels = from_dlpack(df[label_names].to_dlpack()).type(torch.long)
```
-/

/-- Python `list.remove(x)`: delete the first occurrence of `x`. -/
def removeFirst (x : String) : List String → List String
  | [] => []
  | c :: cs => if c = x then cs else c :: removeFirst x cs

/-- The `label_names` list: all column names with the first `text` removed. -/
def label_names (df : DataFrame) : List String :=
  removeFirst "text" df.columns

/-- Index of the first column named `n` (cudf column lookup). -/
def colIdx (n : String) : List String → Option Nat
  | [] => none
  | c :: cs => if c = n then some 0 else (colIdx n cs).map (· + 1)

/-- One row of `df[names]`: the cells of `r` at the positions of `names`
in the column list (unresolvable names contribute nothing). -/
def selectRow (cols names : List String) (r : List Cell) : List Cell :=
  names.filterMap (fun n => (colIdx n cols).bind (fun i => r[i]?))

/-- Column selection by name, rowwise: `df[names]`. -/
def selectColumns (df : DataFrame) (names : List String) : List (List Cell) :=
  df.rows.map (selectRow df.columns names)

/-- The label matrix `df[label_names]` handed to dlpack/torch. -/
def labelMatrix (df : DataFrame) : List (List Cell) :=
  selectColumns df (label_names df)

/-- Total cell lookup by column name (defaults to `num 0`; the theorems only
use it where the lookup is proved to succeed). -/
def cellAt (cols : List String) (r : List Cell) (n : String) : Cell :=
  ((colIdx n cols).bind (fun i => r[i]?)).getD default

/-- The column of `df` named `n`, as the per-row lookup results. -/
def dfColumn (df : DataFrame) (n : String) : List (Option Cell) :=
  df.rows.map (fun r => (colIdx n df.columns).bind (fun i => r[i]?))

/-- The `i`-th column of a row-major matrix. -/
def columnAt {α : Type u} (i : Nat) (m : List (List α)) : List (Option α) :=
  m.map (fun r => r[i]?)

/-! ## Train/validation split (notebook cell 14)

```python
dataset_size = len(input_ids)
train_size = int(dataset_size * .8) # 80/20 split
training_dataset, validation_dataset = random_split(dataset, (train_size, (dataset_size-train_size)))
```
-/

/-- Python `int(dataset_size * .8)`.  For every dataset size below 2^53 the float
product `n * 0.8` truncates to `⌊4n/5⌋` (the double nearest to 0.8 exceeds
4/5 by less than half an ulp, so the rounded product never crosses an
integer boundary), so the Python expression is exactly this floor. -/
def train_size (dataset_size : Nat) : Nat :=
  dataset_size * 8 / 10

/-- Model of `torch.utils.data.dataset.random_split(dataset, (len1, len2))`: permutes
the dataset with the global RNG and partitions the permuted sequence into
pieces of the requested lengths; it raises if the lengths do not sum to the
dataset size.  The random permutation is abstracted as the already-shuffled
input list. -/
def random_split {α : Type u} (shuffled : List α) (len1 len2 : Nat) :
    Option (List α × List α) :=
  if len1 + len2 = shuffled.length then
    some (shuffled.take len1, shuffled.drop len1)
  else
    none

/-! ## Device-count loss reduction (notebook cells 19 and 22)

```python
n_gpu = torch.cuda.device_count()
...
if n_gpu > 1:
    loss = loss.mean() # mean() to average on multi-gpu parallel training
loss.backward()
```
A tensor is modelled as its list of scalar entries; under `DataParallel` the
loss tensor holds one per-device loss, otherwise a single scalar. -/

/-- Torch `tensor.mean()`: a scalar (one-element) tensor holding the mean entry. -/
def torchMean (t : List ℚ) : List ℚ :=
  [t.sum / (t.length : ℚ)]

/-- The loss value handed to `loss.backward()`: averaged over devices when
more than one GPU is present, unchanged otherwise. -/
def lossForBackward (n_gpu : Nat) (loss : List ℚ) : List ℚ :=
  if n_gpu > 1 then torchMean loss else loss

/-! ## Per-epoch loss accounting (notebook cell 22)

```python
tr_loss = 0
nb_tr_examples, nb_tr_steps = 0, 0
for batch in train_dataloader:
    ...
    tr_loss += loss.item()
    nb_tr_examples += b_input_ids.size(0)
    nb_tr_steps += 1
print(tr_loss/nb_tr_steps)   # formatted as the epoch's train loss
```
A batch is abstracted to the pair (its scalar loss, its sample count). -/

/-- The tracking variables of one epoch of the training loop. -/
structure EpochState where
  tr_loss : ℚ
  nb_tr_steps : Nat
  nb_tr_examples : Nat
deriving DecidableEq, Repr

/-- One pass of the tracking-variable updates at the end of a batch. -/
def trackBatch (st : EpochState) (b : ℚ × Nat) : EpochState :=
  { tr_loss := st.tr_loss + b.1
    nb_tr_steps := st.nb_tr_steps + 1
    nb_tr_examples := st.nb_tr_examples + b.2 }

/-- Run the tracking variables over an epoch's batches. -/
def runEpoch (batches : List (ℚ × Nat)) : EpochState :=
  batches.foldl trackBatch ⟨0, 0, 0⟩

/-- The end-of-epoch report `tr_loss/nb_tr_steps`; a zero divisor raises
`ZeroDivisionError` in Python, modelled as `none`. -/
def epochLossReport (batches : List (ℚ × Nat)) : Option ℚ :=
  let st := runEpoch batches
  if st.nb_tr_steps = 0 then none else some (st.tr_loss / (st.nb_tr_steps : ℚ))

/-- Number of batches a `DataLoader(dataset, batch_size=b)` with the default
`drop_last=False` yields over a dataset of `n` samples: `⌈n/b⌉`. -/
def numBatches (n batchSize : Nat) : Nat :=
  (n + batchSize - 1) / batchSize

/-! ## Tokenizer adapters (notebook cells 9-12)

```python
def bert_cased_tokenizer(strings, seq_length):
    num_strings = len(strings)
    token_ids, mask = strings.str.subword_tokenize("resources/bert-base-cased-hash.txt",
            seq_length, seq_length, max_rows_tensor=num_strings,
            do_lower=False, do_truncate=True)[:2]
    input_ids = from_dlpack(token_ids.reshape(num_strings,seq_length).astype(cupy.float).toDlpack())
    attention_mask = from_dlpack(mask.reshape(num_strings,seq_length).astype(cupy.float).toDlpack())
    return input_ids.type(torch.long), attention_mask.type(torch.long)
```
(`bert_uncased_tokenizer` is identical except for the hash file and
`do_lower=True`.)  The `.astype(cupy.float)` / `.type(torch.long)` round trip
is the identity on token ids, which are far below 2^53. -/

/-- One output row of token ids: the string's vocabulary tokens truncated to
`seqLen` and zero-padded up to `seqLen`. -/
def padTruncate (seqLen : Nat) (toks : List Nat) : List Nat :=
  toks.take seqLen ++ List.replicate (seqLen - toks.length) 0

/-- One output row of the attention mask: 1 over the real tokens, 0 over the
padding. -/
def maskRow (seqLen : Nat) (toks : List Nat) : List Nat :=
  List.replicate (min toks.length seqLen) 1 ++ List.replicate (seqLen - toks.length) 0

/-- Model of the `cudf` call `strings.str.subword_tokenize(hash_file, seq_len,
seq_len, ..., do_lower, do_truncate=True)`, from its documented behaviour: with
`do_truncate` set and stride equal to the sequence length it emits, for each
input string in order, exactly `seq_len` token ids and the matching 0/1
attention mask, flattened row-major into two flat arrays.  The vocabulary
hash file is abstracted as the per-string tokenization `vocabTok`;
`do_lower` lower-cases each string before tokenization. -/
def subword_tokenize (vocabTok : String → List Nat) (doLower : Bool)
    (strings : List String) (seqLen : Nat) : List Nat × List Nat :=
  let rows := strings.map (fun s => vocabTok (if doLower then s.toLower else s))
  ((rows.map (padTruncate seqLen)).flatten, (rows.map (maskRow seqLen)).flatten)

/-- Split a flat list into consecutive rows of width `s`. -/
def chunksOf {α : Type u} : Nat → List α → List (List α)
  | _, [] => []
  | 0, _ :: _ => []
  | s + 1, a :: l => (a :: l.take s) :: chunksOf (s + 1) (l.drop s)
termination_by _ l => l.length
decreasing_by simp; omega

/-- Model of `array.reshape(n, s)` on a flat array: raises (`none`) unless the element
count is exactly `n * s`; a zero row width yields `n` empty rows, matching
ndarray shape `(n, 0)`. -/
def reshape {α : Type u} (n s : Nat) (flat : List α) : Option (List (List α)) :=
  if flat.length = n * s then
    some (if s = 0 then List.replicate n [] else chunksOf s flat)
  else none

/-- The notebook's `bert_cased_tokenizer` (vocabulary hash
`bert-base-cased-hash.txt` abstracted as `vocabTok`, `do_lower=False`). -/
def bert_cased_tokenizer (vocabTok : String → List Nat)
    (strings : List String) (seq_length : Nat) :
    Option (List (List Nat) × List (List Nat)) :=
  match reshape strings.length seq_length
          (subword_tokenize vocabTok false strings seq_length).1,
        reshape strings.length seq_length
          (subword_tokenize vocabTok false strings seq_length).2 with
  | some input_ids, some attention_mask => some (input_ids, attention_mask)
  | _, _ => none

/-- The notebook's `bert_uncased_tokenizer` (vocabulary hash
`bert-base-uncased-hash.txt` abstracted as `vocabTok`, `do_lower=True`). -/
def bert_uncased_tokenizer (vocabTok : String → List Nat)
    (strings : List String) (seq_length : Nat) :
    Option (List (List Nat) × List (List Nat)) :=
  match reshape strings.length seq_length
          (subword_tokenize vocabTok true strings seq_length).1,
        reshape strings.length seq_length
          (subword_tokenize vocabTok true strings seq_length).2 with
  | some input_ids, some attention_mask => some (input_ids, attention_mask)
  | _, _ => none

/-! ## Per-label confusion matrices (notebook cell 25)

```python
for label, cf in zip(label_names, multilabel_confusion_matrix(true_bools, pred_bools)):
    print(label)
    print(cf)
```
-/

/-- One 2x2 confusion matrix `[[tn, fp], [fn, tp]]`. -/
structure ConfusionMat where
  tn : Nat
  fp : Nat
  fn : Nat
  tp : Nat
deriving DecidableEq, Repr

/-- The `i`-th label column of a boolean indicator matrix. -/
def boolColumn (i : Nat) (m : List (List Bool)) : List Bool :=
  m.filterMap (fun r => r[i]?)

/-- Count sample positions whose (truth, prediction) pair is `(tv, pv)`. -/
def countPairs (tv pv : Bool) (tc pc : List Bool) : Nat :=
  ((tc.zip pc).filter (fun x => x.1 == tv && x.2 == pv)).length

/-- Confusion matrix of label column `i`. -/
def confusionAt (t p : List (List Bool)) (i : Nat) : ConfusionMat :=
  { tn := countPairs false false (boolColumn i t) (boolColumn i p)
    fp := countPairs false true (boolColumn i t) (boolColumn i p)
    fn := countPairs true false (boolColumn i t) (boolColumn i p)
    tp := countPairs true true (boolColumn i t) (boolColumn i p) }

/-- The number of label columns sklearn infers from the indicator input. -/
def mcmWidth (t : List (List Bool)) : Nat :=
  (t.head?.map List.length).getD 0

/-- Model of `sklearn.metrics.multilabel_confusion_matrix(y_true, y_pred)`,
from its documented behaviour: one 2x2 matrix per label column, in column
order, each computed over that column across all samples. -/
def multilabel_confusion_matrix (t p : List (List Bool)) : List ConfusionMat :=
  (List.range (mcmWidth t)).map (confusionAt t p)

/-- The reporting loop's pairing of label names with confusion matrices. -/
def confusionReport (names : List String) (t p : List (List Bool)) :
    List (String × ConfusionMat) :=
  names.zip (multilabel_confusion_matrix t p)

/-! ## Evaluation thresholding (notebook cell 24)

```python
threshold = 0.50
pred_bools = [pl>threshold for pl in pred_labels]
true_bools = [tl==1 for tl in true_labels]
```
-/

/-- The decision threshold, `threshold = 0.50`. -/
def threshold : ℚ := 50 / 100

/-- The collected `pred_labels`: `torch.sigmoid(b_logit_pred)` over every
validation batch; the external framework's sigmoid is abstracted as the
function `sigmoid` applied elementwise to the collected logits. -/
def pred_labels (sigmoid : ℚ → ℚ) (logit_preds : List (List ℚ)) : List (List ℚ) :=
  logit_preds.map (fun row => row.map sigmoid)

/-- The list `pred_bools`: elementwise `pl > threshold` over each probability row. -/
def pred_bools (pls : List (List ℚ)) : List (List Bool) :=
  pls.map (fun pl => pl.map (fun p => decide (p > threshold)))

/-- The list `true_bools`: elementwise `tl == 1` over each ground-truth label row. -/
def true_bools (tls : List (List Int)) : List (List Bool) :=
  tls.map (fun tl => tl.map (fun l => decide (l = 1)))

/-! ## Flat accuracy (notebook cell 24)

```python
val_flat_accuracy = accuracy_score(true_bools, pred_bools)*100
```
-/

/-- Model of `sklearn.metrics.accuracy_score(y_true, y_pred)`, from its
documented behaviour on multilabel indicator input: subset accuracy, the
mean over samples of the indicator that the predicted label row exactly
equals the true label row. -/
def accuracy_score (y_true y_pred : List (List Bool)) : ℚ :=
  ((y_true.zip y_pred).map (fun tp => if tp.1 = tp.2 then (1 : ℚ) else 0)).sum
    / (y_true.length : ℚ)

/-- The reported `val_flat_accuracy`. -/
def val_flat_accuracy (t p : List (List Bool)) : ℚ :=
  accuracy_score t p * 100

/-- Flat accuracy as the spec words it: 100 times the fraction of validation
samples whose full predicted boolean vector exactly matches the ground-truth
vector (stated from the spec, to be compared with the notebook's value). -/
def specExactMatchAccuracy (t p : List (List Bool)) : ℚ :=
  100 * (((t.zip p).filter (fun tp => decide (tp.1 = tp.2))).length : ℚ)
    / (t.length : ℚ)

/-- The alternative reading the claim rules out: 100 times the fraction of
individually correct boolean entries. -/
def specEntryAccuracy (t p : List (List Bool)) : ℚ :=
  100 * (((t.flatten.zip p.flatten).filter (fun tp => decide (tp.1 = tp.2))).length : ℚ)
    / (t.flatten.length : ℚ)

/-! ## Optimizer parameter grouping (notebook cell 21)

```python
param_optimizer = list(model.named_parameters())
no_decay = ['bias', 'gamma', 'beta']
optimizer_grouped_parameters = [
    {'params': [p for n, p in param_optimizer if not any(nd in n for nd in no_decay)],
     'weight_decay_rate': 0.01},
    {'params': [p for n, p in param_optimizer if any(nd in n for nd in no_decay)],
     'weight_decay_rate': 0.0}
]
```
-/

/-- Character-list equality test for a leading segment. -/
def startsWithL : List Char → List Char → Bool
  | [], _ => true
  | _ :: _, [] => false
  | a :: as, b :: bs => a == b && startsWithL as bs

/-- Does `needle` occur as a contiguous segment of the second list? -/
def occursIn (needle : List Char) : List Char → Bool
  | [] => startsWithL needle []
  | b :: bs => startsWithL needle (b :: bs) || occursIn needle bs

/-- Python's `nd in n` substring test on strings. -/
def pyIn (nd n : String) : Bool :=
  occursIn nd.data n.data

/-- The exemption list `no_decay`. -/
def no_decay : List String := ["bias", "gamma", "beta"]

/-- One parameter group handed to `AdamW`; a parameter tensor is abstracted
as a value of type `α`. -/
structure ParamGroup (α : Type u) where
  params : List α
  weight_decay_rate : ℚ
deriving Repr

/-- The `optimizer_grouped_parameters` list built from `model.named_parameters()`. -/
def optimizer_grouped_parameters {α : Type u}
    (param_optimizer : List (String × α)) : List (ParamGroup α) :=
  [ { params := (param_optimizer.filter
        (fun np => !(no_decay.any (fun nd => pyIn nd np.1)))).map Prod.snd
      weight_decay_rate := 0.01 }
  , { params := (param_optimizer.filter
        (fun np => no_decay.any (fun nd => pyIn nd np.1))).map Prod.snd
      weight_decay_rate := 0.0 } ]

/-! ## Concrete example data used by the witnesses -/

/-- A tiny concrete dataframe: a `text` column and two label columns. -/
def dfExample : DataFrame :=
  { columns := ["text", "a", "b"]
    rows := [[Cell.text "x", Cell.num 0, Cell.num 1],
             [Cell.text "y", Cell.num 1, Cell.num 0]] }

/-- A tiny ground-truth boolean indicator matrix (two samples, two labels). -/
def tExample : List (List Bool) :=
  [[true, false], [false, false]]

/-- A tiny prediction boolean indicator matrix (two samples, two labels). -/
def pExample : List (List Bool) :=
  [[true, true], [false, false]]

/-- A tiny list of named parameters (tensors abstracted as numbers). -/
def poExample : List (String × Nat) :=
  [("encoder.layer.weight", 0), ("encoder.layer.bias", 1),
   ("norm.gamma", 2), ("classifier.weight", 3)]

/-! ## Theorems about splitting and the training loop -/

theorem train_size_le (n : Nat) : train_size n ≤ n := by
  have h : n * 8 / 10 ≤ n * 10 / 10 := Nat.div_le_div_right (by omega)
  simpa [train_size, Nat.mul_div_cancel n (by norm_num : (0:Nat) < 10)] using h

/-- C2: for every dataset (modelled after the RNG's shuffle), the split
succeeds, the training subset has size `int(0.8 * n)`, the validation subset
has size `n - int(0.8 * n)`, and the two sizes sum exactly to `n`. -/
theorem c2_split_sizes_sum {α : Type u} (shuffled : List α) :
    ∃ t v,
      random_split shuffled (train_size shuffled.length)
          (shuffled.length - train_size shuffled.length) = some (t, v)
      ∧ t.length = train_size shuffled.length
      ∧ v.length = shuffled.length - train_size shuffled.length
      ∧ t.length + v.length = shuffled.length := by
  have hle := train_size_le shuffled.length
  refine ⟨shuffled.take (train_size shuffled.length),
      shuffled.drop (train_size shuffled.length), ?_, ?_, ?_, ?_⟩
  · simp [random_split, Nat.add_sub_cancel' hle]
  · simp [List.length_take, Nat.min_eq_left hle]
  · simp [List.length_drop]
  · simp [List.length_take, List.length_drop, Nat.min_eq_left hle]
    omega

theorem runEpoch_eq (batches : List (ℚ × Nat)) (st : EpochState) :
    batches.foldl trackBatch st =
      ⟨st.tr_loss + (batches.map Prod.fst).sum,
       st.nb_tr_steps + batches.length,
       st.nb_tr_examples + (batches.map Prod.snd).sum⟩ := by
  induction batches generalizing st with
  | nil => simp
  | cons b bs ih =>
      simp only [List.foldl_cons, ih, List.map_cons, List.sum_cons, List.length_cons]
      simp [trackBatch]
      refine ⟨by ring, by omega, by omega⟩

/-- C6: for every epoch with at least one batch, the reported value
`tr_loss/nb_tr_steps` is the sum of the per-batch losses divided by the
number of batches processed. -/
theorem c6_epoch_loss_is_mean (batches : List (ℚ × Nat)) (h : batches ≠ []) :
    epochLossReport batches =
      some ((batches.map Prod.fst).sum / (batches.length : ℚ)) := by
  have hsteps : (runEpoch batches).nb_tr_steps = batches.length := by
    simp [runEpoch, runEpoch_eq]
  have hloss : (runEpoch batches).tr_loss = (batches.map Prod.fst).sum := by
    simp [runEpoch, runEpoch_eq]
  have hne : batches.length ≠ 0 := by
    simpa [List.length_eq_zero] using h
  simp [epochLossReport, hsteps, hloss, hne]

theorem c6_epoch_loss_is_mean_witness :
    epochLossReport [((1:ℚ), 2), ((2:ℚ), 3)] =
      some ((List.map Prod.fst [((1:ℚ), 2), ((2:ℚ), 3)]).sum /
        ((List.length [((1:ℚ), 2), ((2:ℚ), 3)]) : ℚ)) :=
  c6_epoch_loss_is_mean [((1:ℚ), 2), ((2:ℚ), 3)] (List.cons_ne_nil _ _)

/-- C8: with more than one device the loss handed to `backward` is the mean
of the per-device losses; with at most one device it is passed unchanged. -/
theorem c8_loss_reduction (n_gpu : Nat) (loss : List ℚ) :
    (1 < n_gpu → lossForBackward n_gpu loss = [loss.sum / (loss.length : ℚ)])
    ∧ (n_gpu ≤ 1 → lossForBackward n_gpu loss = loss) := by
  constructor
  · intro h
    simp [lossForBackward, torchMean, h]
  · intro h
    simp [lossForBackward, Nat.not_lt.mpr h]

theorem c8_loss_reduction_witness :
    lossForBackward 2 [(1:ℚ), 3] =
        [List.sum [(1:ℚ), 3] / ((List.length [(1:ℚ), 3]) : ℚ)]
    ∧ lossForBackward 1 [(1:ℚ), 3] = [(1:ℚ), 3] :=
  ⟨(c8_loss_reduction 2 [(1:ℚ), 3]).1 (by norm_num),
   (c8_loss_reduction 1 [(1:ℚ), 3]).2 (by norm_num)⟩

/-- C10: the end-of-epoch division `tr_loss/nb_tr_steps` has no guard.
Whenever `int(0.8 * n) ≥ 1` at least one batch runs and the report succeeds;
but for `n = 1` the training subset is empty, no batch runs, and the report
is a division by zero (`none`). -/
theorem c10_epoch_report_division (n : Nat) (batches : List (ℚ × Nat))
    (hb : batches.length = numBatches (train_size n) 32) :
    (1 ≤ train_size n → (epochLossReport batches).isSome = true)
    ∧ (n = 1 → train_size n = 0 ∧ epochLossReport batches = none) := by
  have hsteps : (runEpoch batches).nb_tr_steps = batches.length := by
    simp [runEpoch, runEpoch_eq]
  constructor
  · intro h
    have h32 : 1 ≤ numBatches (train_size n) 32 := by
      have : 32 ≤ train_size n + 31 := by omega
      simpa [numBatches] using Nat.le_div_iff_mul_le (by norm_num) |>.mpr (by omega)
    have hne : batches.length ≠ 0 := by omega
    simp [epochLossReport, hsteps, hne]
  · intro h
    subst h
    have ht : train_size 1 = 0 := by decide
    have hlen : batches.length = 0 := by
      rw [hb, ht]
      decide
    refine ⟨ht, ?_⟩
    simp [epochLossReport, hsteps, hlen]

theorem c10_epoch_report_division_witness :
    train_size 1 = 0 ∧ epochLossReport ([] : List (ℚ × Nat)) = none :=
  (c10_epoch_report_division 1 [] (by decide)).2 rfl

/-! ## Theorems about label extraction and confusion-matrix pairing -/

theorem removeFirst_eq_filter (x : String) (l : List String) (hnd : l.Nodup) :
    removeFirst x l = l.filter (fun c => c != x) := by
  induction l with
  | nil => rfl
  | cons c cs ih =>
      rcases List.nodup_cons.mp hnd with ⟨hc, hcs⟩
      by_cases hcx : c = x
      · subst hcx
        have hall : ∀ b ∈ cs, (b != c) = true := fun b hb =>
          bne_iff_ne.mpr (fun h => hc (h ▸ hb))
        simp [removeFirst, List.filter_cons, List.filter_eq_self.mpr hall]
      · simp only [removeFirst, if_neg hcx, List.filter_cons]
        have : (c != x) = true := bne_iff_ne.mpr hcx
        rw [this, if_pos rfl, ih hcs]

theorem removeFirst_length (x : String) (l : List String) (hx : x ∈ l) :
    (removeFirst x l).length = l.length - 1 := by
  induction l with
  | nil => cases hx
  | cons c cs ih =>
      by_cases hcx : c = x
      · simp [removeFirst, hcx]
      · have hxcs : x ∈ cs := by
          rcases List.mem_cons.mp hx with h | h
          · exact absurd h.symm hcx
          · exact h
        have hpos : 0 < cs.length := List.length_pos_of_mem hxcs
        simp only [removeFirst, if_neg hcx, List.length_cons, ih hxcs]
        omega

theorem colIdx_isSome (n : String) (cols : List String) (hn : n ∈ cols) :
    ∃ i, colIdx n cols = some i ∧ i < cols.length := by
  induction cols with
  | nil => cases hn
  | cons c cs ih =>
      by_cases hc : c = n
      · exact ⟨0, by simp [colIdx, hc], by simp⟩
      · have hn' : n ∈ cs := by
          rcases List.mem_cons.mp hn with h | h
          · exact absurd h.symm hc
          · exact h
        rcases ih hn' with ⟨i, hi, hlt⟩
        refine ⟨i + 1, by simp [colIdx, hc, hi], ?_⟩
        simpa using Nat.succ_lt_succ hlt

theorem filterMap_eq_map_of {α : Type u} {β : Type v} (l : List α)
    (f : α → Option β) (g : α → β) (h : ∀ a ∈ l, f a = some (g a)) :
    l.filterMap f = l.map g := by
  induction l with
  | nil => rfl
  | cons a l ih =>
      rw [List.filterMap_cons, h a (List.mem_cons_self a l), List.map_cons,
        ih (fun b hb => h b (List.mem_cons_of_mem a hb))]

theorem lookup_eq_cellAt (cols : List String) (r : List Cell)
    (hr : r.length = cols.length) (n : String) (hn : n ∈ cols) :
    (colIdx n cols).bind (fun i => r[i]?) = some (cellAt cols r n) := by
  rcases colIdx_isSome n cols hn with ⟨i, hi, hlt⟩
  have hr' : i < r.length := by omega
  rw [cellAt, hi]
  simp [List.getElem?_eq_getElem hr']

theorem selectRow_eq_map (cols names : List String) (r : List Cell)
    (hsub : ∀ n ∈ names, n ∈ cols) (hr : r.length = cols.length) :
    selectRow cols names r = names.map (cellAt cols r) :=
  filterMap_eq_map_of _ _ _ (fun n hn => lookup_eq_cellAt cols r hr n (hsub n hn))

/-- C1: label extraction selects exactly the columns other than `text`,
in their original order; the label matrix keeps the row count and has
exactly `num_columns - 1` columns. -/
theorem c1_label_extraction (df : DataFrame)
    (htext : "text" ∈ df.columns) (hnd : df.columns.Nodup)
    (hwf : ∀ r ∈ df.rows, r.length = df.columns.length) :
    label_names df = df.columns.filter (fun c => c != "text")
    ∧ (label_names df).length = df.columns.length - 1
    ∧ (labelMatrix df).length = df.rows.length
    ∧ ∀ m ∈ labelMatrix df, m.length = df.columns.length - 1 := by
  have hfilter : label_names df = df.columns.filter (fun c => c != "text") :=
    removeFirst_eq_filter "text" df.columns hnd
  have hlen : (label_names df).length = df.columns.length - 1 :=
    removeFirst_length "text" df.columns htext
  have hsub : ∀ n ∈ label_names df, n ∈ df.columns := fun n hn =>
    (List.mem_filter.mp (hfilter ▸ hn)).1
  refine ⟨hfilter, hlen, by simp [labelMatrix, selectColumns], ?_⟩
  intro m hm
  rcases List.mem_map.mp hm with ⟨r, hr, rfl⟩
  rw [selectRow_eq_map _ _ _ hsub (hwf r hr), List.length_map, hlen]

theorem c1_label_extraction_witness :
    label_names dfExample = dfExample.columns.filter (fun c => c != "text")
    ∧ (label_names dfExample).length = dfExample.columns.length - 1
    ∧ (labelMatrix dfExample).length = dfExample.rows.length
    ∧ ∀ m ∈ labelMatrix dfExample, m.length = dfExample.columns.length - 1 :=
  c1_label_extraction dfExample (by decide) (by decide) (by decide)

/-- C9: the column order fixed at label extraction is the mapping used at
confusion-matrix reporting: the `i`-th reported pair is the `i`-th label
name with the confusion matrix of column `i`, and the `i`-th column of the
label matrix is exactly the dataframe column of that same name. -/
theorem c9_label_index_consistency (df : DataFrame) (t p : List (List Bool))
    (hnd : df.columns.Nodup)
    (hwf : ∀ r ∈ df.rows, r.length = df.columns.length)
    (hw : mcmWidth t = (label_names df).length) :
    (∀ i (hi : i < (label_names df).length),
        (confusionReport (label_names df) t p)[i]?
          = some ((label_names df).get ⟨i, hi⟩, confusionAt t p i))
    ∧ (∀ i (hi : i < (label_names df).length),
        columnAt i (labelMatrix df)
          = dfColumn df ((label_names df).get ⟨i, hi⟩)) := by
  have hfilter : label_names df = df.columns.filter (fun c => c != "text") :=
    removeFirst_eq_filter "text" df.columns hnd
  have hsub : ∀ n ∈ label_names df, n ∈ df.columns := fun n hn =>
    (List.mem_filter.mp (hfilter ▸ hn)).1
  constructor
  · intro i hi
    rw [confusionReport, multilabel_confusion_matrix, hw]
    refine List.getElem?_zip_eq_some.mpr ⟨?_, ?_⟩
    · rw [List.getElem?_eq_getElem hi]
      simp [List.get_eq_getElem]
    · rw [List.getElem?_map, List.getElem?_range hi]
      rfl
  · intro i hi
    have hmem : (label_names df).get ⟨i, hi⟩ ∈ label_names df := List.get_mem _ _ hi
    rw [columnAt, labelMatrix, selectColumns, List.map_map, dfColumn]
    refine List.map_congr_left (fun r hr => ?_)
    rw [Function.comp_apply, selectRow_eq_map _ _ _ hsub (hwf r hr),
      List.getElem?_map, List.getElem?_eq_getElem hi,
      Option.map_some', lookup_eq_cellAt df.columns r (hwf r hr) _ (hsub _ hmem)]
    simp [List.get_eq_getElem]

theorem c9_label_index_consistency_witness :
    (confusionReport (label_names dfExample) tExample pExample)[0]?
      = some ("a", confusionAt tExample pExample 0)
    ∧ columnAt 1 (labelMatrix dfExample) = dfColumn dfExample "b" := by
  have h := c9_label_index_consistency dfExample tExample pExample
    (by decide) (by decide) (by decide)
  have h1 := h.1 0 (by decide)
  have h2 := h.2 1 (by decide)
  exact ⟨by simpa [dfExample, label_names, removeFirst] using h1,
    by simpa [dfExample, label_names, removeFirst] using h2⟩

/-! ## Theorems about the tokenizer adapters -/

theorem padTruncate_length (seqLen : Nat) (toks : List Nat) :
    (padTruncate seqLen toks).length = seqLen := by
  simp [padTruncate, List.length_take, List.length_replicate]
  omega

theorem maskRow_length (seqLen : Nat) (toks : List Nat) :
    (maskRow seqLen toks).length = seqLen := by
  simp [maskRow, List.length_replicate]
  omega

theorem flatten_length_uniform {α : Type u} (s : Nat) (rows : List (List α))
    (h : ∀ r ∈ rows, r.length = s) : rows.flatten.length = rows.length * s := by
  induction rows with
  | nil => simp
  | cons r rs ih =>
      have hr := h r (List.mem_cons_self _ _)
      have := ih (fun x hx => h x (List.mem_cons_of_mem _ hx))
      simp only [List.flatten_cons, List.length_append, List.length_cons, hr, this]
      ring

theorem chunksOf_flatten {α : Type u} (s : Nat) (hs : 0 < s) (rows : List (List α))
    (h : ∀ r ∈ rows, r.length = s) : chunksOf s rows.flatten = rows := by
  induction rows with
  | nil => simp [chunksOf]
  | cons r rs ih =>
      obtain ⟨s', rfl⟩ : ∃ s', s = s' + 1 := ⟨s - 1, by omega⟩
      have hr : r.length = s' + 1 := h r (List.mem_cons_self _ _)
      cases r with
      | nil => simp at hr
      | cons a t =>
          have ht : t.length = s' := by simpa using hr
          rw [List.flatten_cons, List.cons_append]
          simp only [chunksOf]
          rw [List.take_left' ht, List.drop_left' ht,
            ih (fun x hx => h x (List.mem_cons_of_mem _ hx))]

theorem reshape_flatten {α : Type u} (n s : Nat) (rows : List (List α))
    (hn : rows.length = n) (h : ∀ r ∈ rows, r.length = s) :
    reshape n s rows.flatten = some rows := by
  rw [reshape, if_pos (by rw [flatten_length_uniform s rows h, hn])]
  by_cases hs : s = 0
  · subst hs
    have hrep : rows = List.replicate n [] :=
      List.eq_replicate_iff.mpr ⟨hn, fun r hr => List.length_eq_zero.mp (h r hr)⟩
    rw [if_pos rfl, ← hrep]
  · rw [if_neg hs, chunksOf_flatten s (Nat.pos_of_ne_zero hs) rows h]

theorem subword_reshape (vocabTok : String → List Nat) (doLower : Bool)
    (strings : List String) (seqLen : Nat) :
    reshape strings.length seqLen (subword_tokenize vocabTok doLower strings seqLen).1
      = some ((strings.map (fun s => vocabTok (if doLower then s.toLower else s))).map
          (padTruncate seqLen))
    ∧ reshape strings.length seqLen (subword_tokenize vocabTok doLower strings seqLen).2
      = some ((strings.map (fun s => vocabTok (if doLower then s.toLower else s))).map
          (maskRow seqLen)) := by
  constructor
  · apply reshape_flatten
    · simp
    · intro r hr
      rcases List.mem_map.mp hr with ⟨x, _, rfl⟩
      exact padTruncate_length seqLen x
  · apply reshape_flatten
    · simp
    · intro r hr
      rcases List.mem_map.mp hr with ⟨x, _, rfl⟩
      exact maskRow_length seqLen x

theorem bert_cased_tokenizer_eq (vocabTok : String → List Nat)
    (strings : List String) (seqLen : Nat) :
    bert_cased_tokenizer vocabTok strings seqLen =
      some ((strings.map vocabTok).map (padTruncate seqLen),
        (strings.map vocabTok).map (maskRow seqLen)) := by
  obtain ⟨h1, h2⟩ := subword_reshape vocabTok false strings seqLen
  simp only [Bool.false_eq_true, if_false] at h1 h2
  rw [bert_cased_tokenizer, h1, h2]

theorem bert_uncased_tokenizer_eq (vocabTok : String → List Nat)
    (strings : List String) (seqLen : Nat) :
    bert_uncased_tokenizer vocabTok strings seqLen =
      some ((strings.map (fun s => vocabTok s.toLower)).map (padTruncate seqLen),
        (strings.map (fun s => vocabTok s.toLower)).map (maskRow seqLen)) := by
  obtain ⟨h1, h2⟩ := subword_reshape vocabTok true strings seqLen
  simp only [if_true] at h1 h2
  rw [bert_uncased_tokenizer, h1, h2]

/-- C3: for every input string list and target sequence length, both
tokenizer variants succeed and return a token-id matrix and an
attention-mask matrix of shape `(count, sequence_length)`, regardless of the
individual string lengths. -/
theorem c3_tokenizer_shapes (vocabC vocabU : String → List Nat)
    (strings : List String) (seqLen : Nat) :
    ∃ idsC maskC idsU maskU,
      bert_cased_tokenizer vocabC strings seqLen = some (idsC, maskC)
      ∧ bert_uncased_tokenizer vocabU strings seqLen = some (idsU, maskU)
      ∧ idsC.length = strings.length ∧ maskC.length = strings.length
      ∧ idsU.length = strings.length ∧ maskU.length = strings.length
      ∧ (∀ row ∈ idsC, row.length = seqLen)
      ∧ (∀ row ∈ maskC, row.length = seqLen)
      ∧ (∀ row ∈ idsU, row.length = seqLen)
      ∧ (∀ row ∈ maskU, row.length = seqLen) := by
  refine ⟨(strings.map vocabC).map (padTruncate seqLen),
    (strings.map vocabC).map (maskRow seqLen),
    (strings.map (fun s => vocabU s.toLower)).map (padTruncate seqLen),
    (strings.map (fun s => vocabU s.toLower)).map (maskRow seqLen),
    bert_cased_tokenizer_eq vocabC strings seqLen,
    bert_uncased_tokenizer_eq vocabU strings seqLen,
    by simp, by simp, by simp, by simp, ?_, ?_, ?_, ?_⟩
  all_goals
    intro row hrow
    rcases List.mem_map.mp hrow with ⟨x, _, rfl⟩
  · exact padTruncate_length seqLen x
  · exact maskRow_length seqLen x
  · exact padTruncate_length seqLen x
  · exact maskRow_length seqLen x

/-! ## Theorems about evaluation, metrics and the optimizer grouping -/

/-- C4: each boolean prediction compares the sigmoid-activated probability
against the fixed threshold 0.5 (which `threshold = 0.50` equals), and each
ground-truth boolean is `label == 1`. -/
theorem c4_threshold_decision (sigmoid : ℚ → ℚ) (logits : List (List ℚ))
    (labels : List (List Int)) (i j : Nat) :
    threshold = 1 / 2
    ∧ (pred_bools (pred_labels sigmoid logits))[i]?.bind (fun row => row[j]?)
        = (logits[i]?.bind (fun row => row[j]?)).map
            (fun x => decide (sigmoid x > 1 / 2))
    ∧ (true_bools labels)[i]?.bind (fun row => row[j]?)
        = (labels[i]?.bind (fun row => row[j]?)).map (fun l => decide (l = 1)) := by
  have hthr : threshold = 1 / 2 := by norm_num [threshold]
  refine ⟨hthr, ?_, ?_⟩
  · simp only [pred_bools, pred_labels, List.getElem?_map]
    cases h : logits[i]? with
    | none => simp
    | some row =>
        simp [List.getElem?_map, hthr, Function.comp_def]
  · simp only [true_bools, List.getElem?_map]
    cases h : labels[i]? with
    | none => simp
    | some row => simp [List.getElem?_map]

theorem sum_indicator_eq_count {α : Type u} [DecidableEq α] (l : List (α × α)) :
    (l.map (fun tp => if tp.1 = tp.2 then (1 : ℚ) else 0)).sum
      = ((l.filter (fun tp => decide (tp.1 = tp.2))).length : ℚ) := by
  induction l with
  | nil => simp
  | cons a l ih =>
      by_cases h : a.1 = a.2
      · simp [List.filter_cons, h, ih]
        ring
      · simp [List.filter_cons, h, ih]

/-- C5: the reported flat accuracy is 100 times the fraction of samples whose
full predicted boolean vector exactly matches the ground-truth vector, and it
differs in general from 100 times the fraction of individually correct
entries. -/
theorem c5_flat_accuracy_exact_match :
    (∀ t p : List (List Bool), val_flat_accuracy t p = specExactMatchAccuracy t p)
    ∧ val_flat_accuracy tExample pExample ≠ specEntryAccuracy tExample pExample := by
  constructor
  · intro t p
    rw [val_flat_accuracy, accuracy_score, specExactMatchAccuracy,
      sum_indicator_eq_count]
    rw [div_mul_eq_mul_div, mul_comm]
  · norm_num [val_flat_accuracy, accuracy_score, specEntryAccuracy,
      tExample, pExample]

theorem filter_not_length {α : Type u} (l : List α) (q : α → Bool) :
    (l.filter q).length + (l.filter (fun a => !q a)).length = l.length := by
  induction l with
  | nil => rfl
  | cons a l ih =>
      by_cases h : q a = true <;> simp [List.filter_cons, h] <;> omega

/-- C7: the optimizer grouping splits the named parameters into exactly two
groups: names containing `bias`, `gamma` or `beta` get weight-decay rate 0.0,
all other parameters get 0.01, and every parameter lands in exactly one
group. -/
theorem c7_optimizer_grouping {α : Type u}
    (param_optimizer : List (String × α))
    (hdistinct : (param_optimizer.map Prod.snd).Nodup) :
    ∃ decayGroup noDecayGroup,
      optimizer_grouped_parameters param_optimizer = [decayGroup, noDecayGroup]
      ∧ decayGroup.weight_decay_rate = 0.01
      ∧ noDecayGroup.weight_decay_rate = 0.0
      ∧ decayGroup.params.length + noDecayGroup.params.length
          = param_optimizer.length
      ∧ ∀ np ∈ param_optimizer,
          (no_decay.any (fun nd => pyIn nd np.1) = true
            → np.2 ∈ noDecayGroup.params ∧ np.2 ∉ decayGroup.params)
          ∧ (no_decay.any (fun nd => pyIn nd np.1) = false
            → np.2 ∈ decayGroup.params ∧ np.2 ∉ noDecayGroup.params) := by
  have hinj : ∀ x ∈ param_optimizer, ∀ y ∈ param_optimizer,
      x.2 = y.2 → x = y := List.inj_on_of_nodup_map hdistinct
  refine ⟨_, _, rfl, rfl, rfl, ?_, ?_⟩
  · simp only [List.length_map]
    rw [Nat.add_comm]
    exact filter_not_length param_optimizer
      (fun np => no_decay.any (fun nd => pyIn nd np.1))
  · intro np hnp
    constructor
    · intro hq
      constructor
      · exact List.mem_map_of_mem Prod.snd (List.mem_filter.mpr ⟨hnp, hq⟩)
      · intro hmem
        rcases List.mem_map.mp hmem with ⟨np', hnp', hsnd⟩
        have hmem' := List.mem_of_mem_filter hnp'
        have := hinj np' hmem' np hnp hsnd
        subst this
        have := (List.mem_filter.mp hnp').2
        simp [hq] at this
    · intro hq
      constructor
      · exact List.mem_map_of_mem Prod.snd
          (List.mem_filter.mpr ⟨hnp, by simp [hq]⟩)
      · intro hmem
        rcases List.mem_map.mp hmem with ⟨np', hnp', hsnd⟩
        have hmem' := List.mem_of_mem_filter hnp'
        have := hinj np' hmem' np hnp hsnd
        subst this
        have := (List.mem_filter.mp hnp').2
        simp [hq] at this

theorem c7_optimizer_grouping_witness :
    ∃ decayGroup noDecayGroup,
      optimizer_grouped_parameters poExample = [decayGroup, noDecayGroup]
      ∧ decayGroup.weight_decay_rate = 0.01
      ∧ noDecayGroup.weight_decay_rate = 0.0
      ∧ decayGroup.params.length + noDecayGroup.params.length = poExample.length
      ∧ ∀ np ∈ poExample,
          (no_decay.any (fun nd => pyIn nd np.1) = true
            → np.2 ∈ noDecayGroup.params ∧ np.2 ∉ decayGroup.params)
          ∧ (no_decay.any (fun nd => pyIn nd np.1) = false
            → np.2 ∈ decayGroup.params ∧ np.2 ∉ noDecayGroup.params) :=
  c7_optimizer_grouping poExample (by decide)

end PiiNotebook
